import Mathlib

/-!
Shallow embedding of the reconciliation core of `upsf_shard_manager/app.py`
(bisdn/upsf-sgrp-manager): the shard mapper `ShardManager.map_shards`, the
policy query `get_static_shard_to_sgup_mapping`, and the default-shard
materializer `create_default_items`, together with the store's shard-update
semantics (`updateShard` with `list_merge_strategy = "replace"`, modelled
from the contract in spec sections 4.2 and 4.4).

Modelling conventions:
* protobuf items become structures carrying exactly the fields the core reads;
* the SHA-256 fingerprint is modelled by the fingerprint *string* itself
  (equal strings give equal hashes, which is the only direction the write
  guard relies on);
* a Python `set` of network-connection names is modelled by the list of
  distinct names in first-insertion order — the stable iteration order the
  spec itself recommends (section 4.4e). CPython's actual set iteration
  order is a process-fixed function of the element hashes and the insertion
  sequence; under hash-slot collisions it is insertion-order-sensitive, so
  no content-canonical order is assumed and none is;
* Python dicts keyed by name are modelled by association lists with
  insert-or-overwrite (`upsert`), preserving first-insertion key order and
  last-assignment values;
* the float division `allocated_session_count / max_session_count` is
  modelled by exact rational division.
-/

namespace UpsfSgrp

/-- Comma separator used by the fingerprint join. -/
def commaStr : String := ","

/-- Slash separator between UP name and NC list in the fingerprint. -/
def slashStr : String := "/"

/-- ServiceGateway item: only its name is read (eligibility filter). -/
structure ServiceGateway where
  name : String
deriving DecidableEq

/-- ServiceGatewayUserPlane item, with the fields `map_shards` reads:
`name`, `service_gateway_name`, `spec.max_session_count`,
`status.allocated_session_count`, `spec.default_endpoint.endpoint_name`,
`spec.supported_service_group`. -/
structure Sgup where
  name : String
  serviceGatewayName : String
  maxSessionCount : Nat
  allocatedSessionCount : Nat
  defaultEndpointName : String
  supportedServiceGroup : List String
deriving DecidableEq

/-- TrafficSteeringFunction item: name and default endpoint name. -/
structure Tsf where
  name : String
  defaultEndpointName : String
deriving DecidableEq

/-- NetworkConnection item. `ncSpecType` is the string returned by the
protobuf `WhichOneof("nc_spec")` query; the four oneof sub-messages are
all readable (an unset one reads as defaults), so each variant's endpoint
names are separate fields. Endpoints are projected to their names, the
only significant part for matching. -/
structure NetworkConnection where
  name : String
  ncSpecType : String
  ssPtpTsfEndpoint : String := ""
  ssPtpSgupEndpoints : List String := []
  ssMptpTsfEndpoints : List String := []
  ssMptpSgupEndpoints : List String := []
  msPtpTsfEndpoint : String := ""
  msPtpSgupEndpoint : String := ""
  msMptpTsfEndpoints : List String := []
  msMptpSgupEndpoint : String := ""
deriving DecidableEq

/-- Shard item, with the fields the core reads: `name`, `spec.prefix`,
`spec.desired_state.service_gateway_user_plane`,
`spec.desired_state.network_connection`. -/
structure Shard where
  name : String
  desiredUp : String
  desiredNc : List String
  prefixes : List String
deriving DecidableEq

/-- One policy entry under `upsf.shards` in the configuration file.
`name`/`prefixes` may be absent (entry then skipped with a warning);
`exclude` defaults to the empty list; `serviceGatewayUserPlane` is the
optional static pin. -/
structure PolicyEntry where
  name : Option String
  prefixes : Option (List String)
  exclude : List String := []
  serviceGatewayUserPlane : Option String := none
deriving DecidableEq

/-- A store snapshot: the five lists `map_shards` reads. -/
structure Snapshot where
  sgs : List ServiceGateway
  sgups : List Sgup
  shards : List Shard
  tsfs : List Tsf
  ncs : List NetworkConnection
deriving DecidableEq

/-- Parameters of one `updateShard` call. Both call sites pass
`list_merge_strategy = "replace"`. A field the call site omits is `none`. -/
structure ShardUpdate where
  name : String
  desiredUp : Option String
  desiredNc : Option (List String)
  tsfNc : Option (List (String × String))
  serviceGroupsSupported : Option (List String)
  prefixes : List String
deriving DecidableEq

/-- Parameters of one `createShard` call issued by `create_default_items`. -/
structure CreateParams where
  name : String
  virtualMac : String
  allocatedSessionCount : Nat
  maxSessionCount : Nat
  prefixes : List String
  desiredUp : Option String
deriving DecidableEq

/-- `get_static_shard_to_sgup_mapping`: scan `upsf.shards`; entries missing
`name` or `serviceGatewayUserPlane` are skipped with a warning; the first
entry whose name matches yields its pin. -/
def staticPin : List PolicyEntry → String → Option String
  | [], _ => none
  | e :: rest, shardName =>
    match e.name, e.serviceGatewayUserPlane with
    | some n, some p => if n = shardName then some p else staticPin rest shardName
    | _, _ => staticPin rest shardName

/-- Python-dict insertion: overwrite the value in place when the key exists,
append otherwise (first-insertion key order, last-assignment value). -/
def upsert {α : Type} (m : List (String × α)) (k : String) (v : α) : List (String × α) :=
  if m.any (fun p => p.1 = k) then m.map (fun p => if p.1 = k then (k, v) else p)
  else m ++ [(k, v)]

/-- Load of an SGUP: `allocated_session_count / max_session_count`,
modelled as an exact rational (`mkRat` is that division, see
`loadOf_eq_div`). -/
def loadOf (u : Sgup) : ℚ := mkRat u.allocatedSessionCount u.maxSessionCount

/-- `loadOf` is the rational division of allocated by maximal session
count. -/
lemma loadOf_eq_div (u : Sgup) :
    loadOf u = (u.allocatedSessionCount : ℚ) / (u.maxSessionCount : ℚ) := by
  unfold loadOf
  rw [Rat.mkRat_eq_div]
  norm_num

/-- One step of building the `sgup_load` dict comprehension: an SGUP with
`max_session_count > 0` whose `service_gateway_name` is among the SG names
contributes its load under its name; any other SGUP is filtered out. -/
def sgupLoadStep (sgNames : List String) (m : List (String × ℚ)) (u : Sgup) :
    List (String × ℚ) :=
  if 0 < u.maxSessionCount ∧ u.serviceGatewayName ∈ sgNames then
    upsert m u.name (loadOf u)
  else m

/-- The `sgup_load` dict comprehension: load for every SGUP with
`max_session_count > 0` whose `service_gateway_name` is among the SG names. -/
def sgupLoad (sgups : List Sgup) (sgNames : List String) : List (String × ℚ) :=
  sgups.foldl (sgupLoadStep sgNames) []

/-- Fold of Python's `min(..., key=...)`: keep the earlier entry unless a
strictly smaller value appears later. -/
def minPair (b : String × ℚ) (l : List (String × ℚ)) : String × ℚ :=
  l.foldl (fun best p => if p.2 < best.2 then p else best) b

/-- `min(sgup_load, key=sgup_load.get)`: key of the least-loaded entry,
first occurrence winning ties; `none` on an empty dict. -/
def minLoadKey : List (String × ℚ) → Option String
  | [] => none
  | p :: rest => some (minPair p rest).1

/-- Outcome of the SGUP-selection step (app.py lines 240-307). -/
inductive SelectResult where
  | abortSweep
  | skipShard
  | chosen (upName : String)
deriving DecidableEq

/-- SGUP selection for one shard. A re-selection is required when a static
pin exists and differs from the stored desired UP, or when the stored
desired UP is not among the SGUP names. An unresolvable static pin hits the
`return` statement (the whole sweep stops); an empty candidate dict hits
`continue` (only this shard is skipped). -/
def selectUp (staticUp : Option String) (upNames sgNames : List String)
    (sgups : List Sgup) (storedUp : String) : SelectResult :=
  if (staticUp.isSome ∧ staticUp ≠ some storedUp) ∨ storedUp ∉ upNames then
    match staticUp with
    | some p => if p ∈ upNames then .chosen p else .abortSweep
    | none =>
      match minLoadKey (sgupLoad sgups sgNames) with
      | none => .skipShard
      | some u => .chosen u
  else .chosen storedUp

/-- Topology test for one (tsf endpoint, network connection) pair against the
chosen SGUP's default endpoint (app.py lines 334-432). Each branch keys on
the `WhichOneof` tag strings exactly as the source spells them — note the
SS-MPTP branch accepts `"ss_mptpc"`, not `"ss_mptp"`. -/
def ncMatches (upEpName tsfEpName : String) (nc : NetworkConnection) : Bool :=
  if nc.ncSpecType = "SsPtpSpec" ∨ nc.ncSpecType = "ss_ptp" then
    nc.ssPtpSgupEndpoints.any (fun ep => upEpName = ep ∧ tsfEpName = nc.ssPtpTsfEndpoint)
  else if nc.ncSpecType = "SsMptpSpec" ∨ nc.ncSpecType = "ss_mptpc" then
    nc.ssMptpSgupEndpoints.any (fun upEp =>
      nc.ssMptpTsfEndpoints.any (fun tsfEp => upEpName = upEp ∧ tsfEpName = tsfEp))
  else if nc.ncSpecType = "MsPtpSpec" ∨ nc.ncSpecType = "ms_ptp" then
    upEpName = nc.msPtpSgupEndpoint ∧ tsfEpName = nc.msPtpTsfEndpoint
  else if nc.ncSpecType = "MsMptpSpec" ∨ nc.ncSpecType = "ms_mptp" then
    nc.msMptpTsfEndpoints.any (fun tsfEp => upEpName = nc.msMptpSgupEndpoint ∧ tsfEpName = tsfEp)
  else false

/-- A Python set of strings, as far as iteration is concerned: the distinct
elements in first-insertion order (re-adding a present element does not
move it). This is the stable iteration order the spec recommends
("insertion order of first match"); CPython's actual set order is a
process-fixed function of the element hashes and the insertion sequence,
and under hash-slot collisions it too depends on insertion order — it is
not a function of the contents alone. -/
def setNames (l : List String) : List String :=
  l.eraseDups

/-- Contents of `desired_network_connection` after the matching loops: the
names of all NCs that match some TSF's default endpoint against the chosen
SGUP's default endpoint. -/
def matchedNcNames (tsfs : List Tsf) (ncs : List NetworkConnection) (upEpName : String) :
    List String :=
  setNames
    ((ncs.filter (fun nc => tsfs.any (fun t => ncMatches upEpName t.defaultEndpointName nc))).map
      NetworkConnection.name)

/-- The `tsf_network_connection` dict: for every TSF, every matching NC
overwrites the TSF's slot, so the last matching NC in store order wins. -/
def tsfNcMap (tsfs : List Tsf) (ncs : List NetworkConnection) (upEpName : String) :
    List (String × String) :=
  tsfs.foldl
    (fun m t =>
      (ncs.filter (fun nc => ncMatches upEpName t.defaultEndpointName nc)).foldl
        (fun m' nc => upsert m' t.name nc.name) m)
    []

/-- Fingerprint string `up + "/" + ",".join(ncNames)`; the source hashes it
with SHA-256, and equal strings hash equally, which is what the write guard
uses. -/
def fingerOf (up : String) (ncNames : List String) : String :=
  up ++ slashStr ++ String.intercalate commaStr ncNames

/-- Fingerprint of a shard's currently stored desired state, verbatim. -/
def fingerActive (h : Shard) : String := fingerOf h.desiredUp h.desiredNc

/-- Outcome of processing one shard inside the `map_shards` loop. -/
inductive ProcessResult where
  | abortSweep
  | skipShard
  | noWrite
  | write (u : ShardUpdate)
deriving DecidableEq

/-- Per-shard body of the `map_shards` loop (app.py lines 229-502):
fingerprint the stored desired state, select an SGUP, resolve its default
endpoint, match network connections, fingerprint the intended state, and
emit an update exactly when the fingerprints differ. A failing SGUP lookup
raises `UpsfError`, which the outer handler turns into an end of the sweep,
like the unresolvable-static-pin `return`. -/
def processShard (staticUp : Option String) (sgNames upNames : List String)
    (sgups : List Sgup) (tsfs : List Tsf) (ncs : List NetworkConnection)
    (h : Shard) : ProcessResult :=
  match selectUp staticUp upNames sgNames sgups h.desiredUp with
  | .abortSweep => .abortSweep
  | .skipShard => .skipShard
  | .chosen upName =>
    match sgups.find? (fun u => u.name == upName) with
    | none => .abortSweep
    | some up =>
      if fingerOf up.name (matchedNcNames tsfs ncs up.defaultEndpointName) ≠ fingerActive h then
        .write
          { name := h.name
            desiredUp := some up.name
            desiredNc := some (matchedNcNames tsfs ncs up.defaultEndpointName)
            tsfNc := some (tsfNcMap tsfs ncs up.defaultEndpointName)
            serviceGroupsSupported := some (up.supportedServiceGroup.filter (fun g => g ≠ ""))
            prefixes := h.prefixes }
      else .noWrite

/-- The shard loop: per-shard results accumulate updates; `skipShard` and
`noWrite` move on; `abortSweep` stops the whole sweep (updates already
issued stand). -/
def runSweep (pol : List PolicyEntry) (sgNames upNames : List String)
    (sgups : List Sgup) (tsfs : List Tsf) (ncs : List NetworkConnection) :
    List Shard → List ShardUpdate
  | [] => []
  | h :: rest =>
    match processShard (staticPin pol h.name) sgNames upNames sgups tsfs ncs h with
    | .abortSweep => []
    | .skipShard => runSweep pol sgNames upNames sgups tsfs ncs rest
    | .noWrite => runSweep pol sgNames upNames sgups tsfs ncs rest
    | .write u => u :: runSweep pol sgNames upNames sgups tsfs ncs rest

/-- The update issued by the empty-plane shortcut: only `name`, `prefix` and
`list_merge_strategy = "replace"`. -/
def clearUpdate (h : Shard) : ShardUpdate :=
  { name := h.name
    desiredUp := none
    desiredNc := none
    tsfNc := none
    serviceGroupsSupported := none
    prefixes := h.prefixes }

/-- `ShardManager.map_shards` (app.py lines 174-527) as a function from a
snapshot to the list of `updateShard` calls it issues, in order. -/
def mapShards (pol : List PolicyEntry) (S : Snapshot) : List ShardUpdate :=
  if S.sgups = [] then
    (S.shards.filter (fun h => h.desiredUp ≠ "")).map clearUpdate
  else
    runSweep pol (S.sgs.map ServiceGateway.name) (S.sgups.map Sgup.name)
      S.sgups S.tsfs S.ncs S.shards

/-- Modelled from the spec: the store's `updateShard` semantics (spec
sections 4.2 and 4.4), which live in the external `upsf_client` package,
absent from this repository. A present scalar field overwrites the stored
one and an absent scalar is kept (partial update); under
`list_merge_strategy = "replace"` a list-valued field is overwritten by the
params' value, an absent list-valued field by the empty list. -/
def applyShardUpdate (h : Shard) (u : ShardUpdate) : Shard :=
  { h with
    desiredUp := u.desiredUp.getD h.desiredUp
    desiredNc := u.desiredNc.getD []
    prefixes := u.prefixes }

/-- Apply a sequence of updates to the stored shard list; each update targets
the shards bearing its name. -/
def applyUpdates (shards : List Shard) (us : List ShardUpdate) : List Shard :=
  us.foldl
    (fun acc u => acc.map (fun h => if h.name = u.name then applyShardUpdate h u else h))
    shards

/-- `True` exactly when processing the shard in this snapshot ends in an
`updateShard` call. -/
def shardWrites (pol : List PolicyEntry) (S : Snapshot) (h : Shard) : Bool :=
  match processShard (staticPin pol h.name) (S.sgs.map ServiceGateway.name)
      (S.sgups.map Sgup.name) S.sgups S.tsfs S.ncs h with
  | .write _ => true
  | _ => false

/-- The `set(ip_address(host) for host in entry.get("exclude", []))`
comprehension: the parsed exclude addresses, or `none` when any entry raises
`ValueError`. Addresses are modelled as naturals; the parser stands for
`ipaddress.ip_address` and is passed in, since the `ipaddress` library is
external to this repository. -/
def excludeSet (parseAddr : String → Option Nat) (exclude : List String) :
    Option (List Nat) :=
  exclude.mapM parseAddr

/-- Body of one iteration of the prefix loop of `create_default_items`
(app.py lines 633-658): re-parse the whole exclude list and enumerate the
prefix's hosts inside one `try`; a `ValueError` from either (the `none`
cases) makes the iteration contribute nothing (`continue`); otherwise the
iteration contributes the number of distinct hosts not excluded. `hostsOf`
stands for `set(ipaddress.ip_network(prefix).hosts())`, `none` meaning
`ValueError`. -/
def prefixContribution (parseAddr : String → Option Nat)
    (hostsOf : String → Option (List Nat)) (exclude : List String) (p : String) : Nat :=
  match excludeSet parseAddr exclude, hostsOf p with
  | some exs, some hs => (hs.dedup.filter (fun a => a ∉ exs)).length
  | _, _ => 0

/-- The `max_session_count` accumulation of `create_default_items`
(app.py lines 632-660): sum of the per-prefix contributions over the
entry's prefix list. -/
def computeMaxSessionCount (parseAddr : String → Option Nat)
    (hostsOf : String → Option (List Nat)) (prefixes exclude : List String) : Nat :=
  prefixes.foldl (fun acc p => acc + prefixContribution parseAddr hostsOf exclude p) 0

/-- Recursive worker of `create_default_items`: walk the policy entries,
threading the `sgup_names` FIFO. Entries missing `name` or `prefixes`, or
naming an existing shard, are skipped. For each remaining entry the FIFO is
re-populated from the store's SGUP names whenever it is empty, then a
statically pinned entry keeps its pin when the pin exists (and is dropped
otherwise), while an un-pinned entry pops the FIFO head if any. -/
def createItemsGo (parseAddr : String → Option Nat)
    (hostsOf : String → Option (List Nat)) (virtualMac : String)
    (existing sgupNamesAll : List String) :
    List PolicyEntry → List String → List CreateParams
  | [], _ => []
  | e :: rest, fifo =>
    match e.name, e.prefixes with
    | some nm, some pfs =>
      if nm ∈ existing then
        createItemsGo parseAddr hostsOf virtualMac existing sgupNamesAll rest fifo
      else
        let maxSess := computeMaxSessionCount parseAddr hostsOf pfs e.exclude
        let fifo1 := if fifo = [] then sgupNamesAll else fifo
        match e.serviceGatewayUserPlane with
        | some p =>
          if p ∈ sgupNamesAll then
            { name := nm, virtualMac := virtualMac, allocatedSessionCount := 0,
              maxSessionCount := maxSess, prefixes := pfs, desiredUp := some p } ::
              createItemsGo parseAddr hostsOf virtualMac existing sgupNamesAll rest fifo1
          else
            createItemsGo parseAddr hostsOf virtualMac existing sgupNamesAll rest fifo1
        | none =>
          match fifo1 with
          | u :: fifoRest =>
            { name := nm, virtualMac := virtualMac, allocatedSessionCount := 0,
              maxSessionCount := maxSess, prefixes := pfs, desiredUp := some u } ::
              createItemsGo parseAddr hostsOf virtualMac existing sgupNamesAll rest fifoRest
          | [] =>
            { name := nm, virtualMac := virtualMac, allocatedSessionCount := 0,
              maxSessionCount := maxSess, prefixes := pfs, desiredUp := none } ::
              createItemsGo parseAddr hostsOf virtualMac existing sgupNamesAll rest fifo1
    | _, _ => createItemsGo parseAddr hostsOf virtualMac existing sgupNamesAll rest fifo

/-- `ShardManager.create_default_items` (app.py lines 577-706) as a function
from policy and snapshot to the `createShard` calls it issues, in order.
Aborts when the store has no SGUPs. The FIFO starts empty and is lazily
populated inside the walk. -/
def createDefaultItems (parseAddr : String → Option Nat)
    (hostsOf : String → Option (List Nat)) (virtualMac : String)
    (pol : List PolicyEntry) (S : Snapshot) : List CreateParams :=
  if S.sgups = [] then []
  else
    createItemsGo parseAddr hostsOf virtualMac (S.shards.map Shard.name)
      (S.sgups.map Sgup.name) pol []

/-! ### Concrete fixtures used by counterexamples and witnesses -/

/-- SGUP `A` of service gateway `g1`, capacity 100, load 10. -/
def cxSgupA : Sgup := ⟨("A"), ("g1"), 100, 10, ("epA"), []⟩

/-- Shard `s1` with empty stored desired state. -/
def cxShardS1 : Shard := ⟨("s1"), (""), [], []⟩

/-- Shard `s2` with empty stored desired state. -/
def cxShardS2 : Shard := ⟨("s2"), (""), [], []⟩

/-- Policy pinning shard `s1` to the nonexistent SGUP `Z`. -/
def cx1Pol : List PolicyEntry := [⟨some ("s1"), none, [], some ("Z")⟩]

/-- Snapshot with SGUP `A` available and two shards both needing a binding. -/
def cx1Snap : Snapshot := ⟨[⟨("g1")⟩], [cxSgupA], [cxShardS1, cxShardS2], [], []⟩

/-- A TSF whose default endpoint is `ep-T1`. -/
def cx3Tsf : Tsf := ⟨("t1"), ("ep-T1")⟩

/-- An SS-MPTP network connection, tagged with the CamelCase form, whose
endpoint pair (`ep-A`, `ep-T1`) matches. -/
def cx3NcCamel : NetworkConnection :=
  { name := ("nc1"), ncSpecType := ("SsMptpSpec"),
    ssMptpTsfEndpoints := [("ep-T1")], ssMptpSgupEndpoints := [("ep-A")] }

/-- The same network connection with the snake_case tag form. -/
def cx3NcSnake : NetworkConnection := { cx3NcCamel with ncSpecType := ("ss_mptp") }

/-- Shard whose stored desired SGUP is `u-old` and stored NC list is empty. -/
def cx4Shard : Shard := ⟨("s1"), ("u-old"), [], []⟩

/-- Snapshot with no SGUPs at all and the single shard `cx4Shard`. -/
def cx4Snap : Snapshot := ⟨[], [], [cx4Shard], [], []⟩

/-- Policy with two well-formed un-pinned entries `s1`, `s2`. -/
def cx2Pol : List PolicyEntry :=
  [⟨some ("s1"), some [], [], none⟩, ⟨some ("s2"), some [], [], none⟩]

/-- Snapshot with exactly one SGUP `U1` and no shards. -/
def cx2Snap : Snapshot := ⟨[], [⟨("U1"), ("g"), 1, 0, ("e"), []⟩], [], [], []⟩

/-- An address parser that rejects every string (stands in where parsing is
irrelevant or must fail, e.g. on the literal `bad`). -/
def cxParseNone : String → Option Nat := fun _ => none

/-- A host enumerator that rejects every prefix string. -/
def cxHostsNone : String → Option (List Nat) := fun _ => none

/-- SGUP whose name `A/B` contains the fingerprint separator. -/
def cx6Sgup : Sgup := ⟨("A/B"), ("g1"), 10, 0, ("epU"), []⟩

/-- Shard storing desired SGUP `A` and desired NC list `["B/C"]`. -/
def cx6Shard : Shard := ⟨("s"), ("A"), [("B/C")], []⟩

/-- TSF with default endpoint `epT`. -/
def cx6Tsf : Tsf := ⟨("t"), ("epT")⟩

/-- MS-PTP network connection named `C` joining `epT` to `epU`. -/
def cx6Nc : NetworkConnection :=
  { name := ("C"), ncSpecType := ("MsPtpSpec"),
    msPtpTsfEndpoint := ("epT"), msPtpSgupEndpoint := ("epU") }

/-- Policy pinning shard `s` to the existing SGUP `A/B`. -/
def cx6Pol : List PolicyEntry := [⟨some ("s"), none, [], some ("A/B")⟩]

/-- Snapshot for the fingerprint-collision scenario. -/
def cx6Snap : Snapshot := ⟨[⟨("g1")⟩], [cx6Sgup], [cx6Shard], [cx6Tsf], [cx6Nc]⟩

/-- Host enumerator knowing the two prefixes `p1` and `p2`, two hosts each. -/
def cx9Hosts : String → Option (List Nat) := fun s =>
  if s = "p1" then some [1, 2] else if s = "p2" then some [3, 4] else none

/-! ### Claim theorems -/

/-- Claim C1 (code bug): when a shard's static pin names an SGUP absent
from the snapshot, `map_shards` executes `return`, abandoning the whole
sweep, not just that shard. At the failing input, shard `s1` is pinned to
the absent `Z`; its processing yields the sweep-ending result, the sweep
issues no update at all, yet sibling shard `s2` on its own would have
received a write. -/
theorem claim_C1_static_pin_aborts_whole_sweep :
    processShard (staticPin cx1Pol cxShardS1.name) (cx1Snap.sgs.map ServiceGateway.name)
        (cx1Snap.sgups.map Sgup.name) cx1Snap.sgups cx1Snap.tsfs cx1Snap.ncs cxShardS1 =
      .abortSweep ∧
    shardWrites cx1Pol cx1Snap cxShardS2 = true ∧
    mapShards cx1Pol cx1Snap = [] := by
  refine ⟨by decide, by decide, by decide⟩

/-- Claim C3 (code bug): the SS-MPTP branch of the matcher accepts the tags
`SsPtpSpec`-style CamelCase form `SsMptpSpec` and the misspelled
`ss_mptpc`, but not the snake_case form `ss_mptp`. Two otherwise identical
SS-MPTP network connections with a matching endpoint pair produce different
matching decisions: the CamelCase-tagged one is recorded, the
snake_case-tagged one is ignored. -/
theorem claim_C3_ss_mptp_snake_tag_ignored :
    cx3NcSnake = { cx3NcCamel with ncSpecType := ("ss_mptp") } ∧
    matchedNcNames [cx3Tsf] [cx3NcCamel] ("ep-A") = [("nc1")] ∧
    matchedNcNames [cx3Tsf] [cx3NcSnake] ("ep-A") = [] := by
  refine ⟨rfl, by decide, by decide⟩

/-- Claim C4 counterexample: on a snapshot with no SGUPs and one shard whose
stored desired SGUP is `u-old` with an already-empty NC list, the sweep
issues the clearing update, which (per the store's partial-update contract)
leaves the store unchanged — the snapshot is identical across two
consecutive sweeps — and the second sweep issues the very same write again
instead of zero writes. -/
theorem claim_C4_counterexample :
    mapShards [] cx4Snap = [clearUpdate cx4Shard] ∧
    applyUpdates cx4Snap.shards (mapShards [] cx4Snap) = cx4Snap.shards ∧
    mapShards []
        { cx4Snap with shards := applyUpdates cx4Snap.shards (mapShards [] cx4Snap) } ≠
      [] := by
  refine ⟨by decide, by decide, by decide⟩

/-- Claim C2 counterexample: with exactly one SGUP `U1` in the store and two
new un-pinned policy entries, the FIFO holds one name and is emptied by the
first materialized shard; the claim then requires the second shard to be
created with no desired SGUP, but the code re-initializes the FIFO from
`listSGUPs()` and binds the second shard to `U1` as well. -/
theorem claim_C2_counterexample :
    cx2Snap.sgups.map Sgup.name = [("U1")] ∧
    (createDefaultItems cxParseNone cxHostsNone ("m") cx2Pol cx2Snap).map
        CreateParams.desiredUp =
      [some ("U1"), some ("U1")] := by
  refine ⟨by decide, by decide⟩

/-- Claim C6 counterexample: policy pins shard `s` to the existing SGUP
`A/B`, but the stored state (`desired up = "A"`, `desired nc = ["B/C"]`)
yields the same fingerprint string `A/B/C` as the intended state
(`up = "A/B"`, `nc = ["C"]`), so the write is suppressed and after the
completed sweep the shard's desired SGUP is still `A`, not the pin `A/B`. -/
theorem claim_C6_counterexample :
    staticPin cx6Pol cx6Shard.name = some ("A/B") ∧
    ("A/B") ∈ cx6Snap.sgups.map Sgup.name ∧
    (applyUpdates cx6Snap.shards (mapShards cx6Pol cx6Snap)).map Shard.desiredUp = [("A")] ∧
    (("A") : String) ≠ ("A/B") := by
  refine ⟨by decide, by decide, by decide, by decide⟩

/-- The name of a clearing update is the shard's name. -/
@[simp] lemma clearUpdate_name (h : Shard) : (clearUpdate h).name = h.name := rfl

/-- Counting, by name, inside a list of shards with pairwise-distinct names:
only the named shard itself can satisfy the predicate. -/
lemma countP_name_of_nodup (l : List Shard) (hnd : (l.map Shard.name).Nodup)
    (h : Shard) (hmem : h ∈ l) (q : Shard → Bool) :
    l.countP (fun x => x.name == h.name && q x) = if q h then 1 else 0 := by
  induction l with
  | nil => cases hmem
  | cons x t ih =>
    rw [List.map_cons, List.nodup_cons] at hnd
    rw [List.countP_cons]
    rcases List.mem_cons.mp hmem with hx | ht
    · subst hx
      have hzero : t.countP (fun x => x.name == h.name && q x) = 0 := by
        refine List.countP_eq_zero.mpr ?_
        intro y hy
        have hne : y.name ≠ h.name := by
          intro hEq
          exact hnd.1 (hEq ▸ List.mem_map_of_mem Shard.name hy)
        simp [hne]
      rw [hzero]
      by_cases hq : q h
      · simp [hq]
      · simp [hq]
    · have hne : x.name ≠ h.name := by
        intro hEq
        exact hnd.1 (hEq ▸ List.mem_map_of_mem Shard.name ht)
      rw [ih hnd.2 ht]
      simp [hne]

/-- Claim C7: with an empty SGUP list, the sweep issues exactly one update
per shard whose stored desired SGUP is non-empty — carrying only the name,
the shard's prefix and the replace merge strategy (all other fields absent,
which is what `clearUpdate` is) — no update for shards with an empty
desired SGUP, and the result is independent of the policy, the TSFs and the
network connections: no selection or matching happens. -/
theorem claim_C7_empty_plane_shortcut (pol pol2 : List PolicyEntry) (S : Snapshot)
    (tsfs2 : List Tsf) (ncs2 : List NetworkConnection)
    (hS : S.sgups = []) (hnd : (S.shards.map Shard.name).Nodup) :
    (∀ h ∈ S.shards,
      (mapShards pol S).countP (fun u => u.name == h.name) =
        if h.desiredUp ≠ "" then 1 else 0) ∧
    (∀ u ∈ mapShards pol S, ∃ h ∈ S.shards, h.desiredUp ≠ "" ∧ u = clearUpdate h) ∧
    mapShards pol S = mapShards pol2 { S with tsfs := tsfs2, ncs := ncs2 } := by
  have hrw : mapShards pol S =
      (S.shards.filter (fun h => h.desiredUp ≠ "")).map clearUpdate := by
    simp [mapShards, hS]
  refine ⟨?_, ?_, ?_⟩
  · intro h hmem
    rw [hrw, List.countP_map, List.countP_filter]
    have hc := countP_name_of_nodup S.shards hnd h hmem (fun a => decide (a.desiredUp ≠ ""))
    simpa [Function.comp] using hc
  · intro u hu
    rw [hrw] at hu
    rcases List.mem_map.mp hu with ⟨h, hmemf, hEq⟩
    rcases List.mem_filter.mp hmemf with ⟨hmem, hne⟩
    exact ⟨h, hmem, by simpa using hne, hEq.symm⟩
  · simp [mapShards, hS]

/-- Snapshot with no SGUPs, one shard with stored desired SGUP `u-old` and
one shard with an empty stored desired SGUP. -/
def cx7Snap : Snapshot := ⟨[], [], [cx4Shard, cxShardS2], [], []⟩

/-- Witness for claim C7 at a concrete snapshot: exactly one clearing update
targets the shard with a non-empty stored desired SGUP, and adding TSFs,
NCs and a policy leaves the sweep's output unchanged. -/
theorem claim_C7_empty_plane_shortcut_witness :
    (mapShards [] cx7Snap).countP (fun u => u.name == cx4Shard.name) = 1 ∧
    mapShards [] cx7Snap = mapShards cx1Pol { cx7Snap with tsfs := [cx3Tsf], ncs := [cx6Nc] } := by
  have hmain := claim_C7_empty_plane_shortcut [] cx1Pol cx7Snap [cx3Tsf] [cx6Nc]
    (by decide) (by decide)
  refine ⟨?_, hmain.2.2⟩
  have h1 := hmain.1 cx4Shard (by decide)
  rw [h1]
  decide

/-- Claim C9 counterexample: both prefixes `p1` and `p2` are well-formed
(two hosts each), yet a single malformed exclude entry `bad` makes the
capacity computation skip every prefix, producing 0 instead of the 4 hosts
the well-formed prefixes were claimed to still contribute. -/
theorem claim_C9_counterexample :
    cx9Hosts ("p1") = some [1, 2] ∧
    cx9Hosts ("p2") = some [3, 4] ∧
    cxParseNone ("bad") = none ∧
    computeMaxSessionCount cxParseNone cx9Hosts [("p1"), ("p2")] [("bad")] = 0 := by
  refine ⟨by decide, by decide, by decide, by decide⟩

/-- A left fold that only ever adds to its accumulator is the accumulator
plus the sum of the added amounts. -/
lemma foldl_add_sum {α : Type} (g : α → Nat) :
    ∀ (l : List α) (init : Nat),
      l.foldl (fun acc p => acc + g p) init = init + (l.map g).sum := by
  intro l
  induction l with
  | nil => intro init; simp
  | cons p t ih =>
    intro init
    rw [List.foldl_cons, ih, List.map_cons, List.sum_cons]
    omega

/-- The capacity computation is the sum of per-prefix contributions. -/
lemma computeMaxSessionCount_eq_sum (parseAddr : String → Option Nat)
    (hostsOf : String → Option (List Nat)) (prefixes exclude : List String) :
    computeMaxSessionCount parseAddr hostsOf prefixes exclude =
      (prefixes.map (prefixContribution parseAddr hostsOf exclude)).sum := by
  unfold computeMaxSessionCount
  rw [foldl_add_sum]
  simp

/-- Claim C8: when every exclude entry parses as an IP address, the
materialized shard's `max_session_count` is the sum, over the parseable
prefixes, of the number of distinct host addresses of the prefix not among
the parsed excludes; unparseable prefixes contribute nothing. -/
theorem claim_C8_capacity_sum (parseAddr : String → Option Nat)
    (hostsOf : String → Option (List Nat)) (prefixes exclude : List String)
    (exs : List Nat) (hex : excludeSet parseAddr exclude = some exs) :
    computeMaxSessionCount parseAddr hostsOf prefixes exclude =
      (prefixes.map (fun p =>
        match hostsOf p with
        | none => 0
        | some hs => (hs.dedup.filter (fun a => a ∉ exs)).length)).sum := by
  rw [computeMaxSessionCount_eq_sum]
  refine congrArg List.sum (List.map_congr_left ?_)
  intro p _
  unfold prefixContribution
  rw [hex]
  cases hostsOf p <;> rfl

/-- Address parser for the literal capacity example: `10.0.0.1` parses to
host number 1, everything else is rejected. -/
def cx8Parse : String → Option Nat := fun s => if s = "10.0.0.1" then some 1 else none

/-- Host enumerator for the literal capacity example: `10.0.0.0/30` has the
two usable hosts numbered 1 and 2. -/
def cx8Hosts : String → Option (List Nat) :=
  fun s => if s = "10.0.0.0/30" then some [1, 2] else none

/-- Witness for claim C8, the spec's literal scenario: prefixes
`["10.0.0.0/30"]` with exclude `["10.0.0.1"]` give `max_session_count = 1`. -/
theorem claim_C8_capacity_sum_witness :
    computeMaxSessionCount cx8Parse cx8Hosts [("10.0.0.0/30")] [("10.0.0.1")] = 1 := by
  have h := claim_C8_capacity_sum cx8Parse cx8Hosts [("10.0.0.0/30")] [("10.0.0.1")]
    [1] (by decide)
  rw [h]
  decide

/-- Claim C9 (amended): when every exclude entry parses, each malformed
prefix is skipped on its own and the remaining prefixes still contribute;
but when any exclude entry is malformed, the per-prefix `try` re-parsing
the exclude list fails on every iteration, every prefix is skipped, and the
capacity is 0. -/
theorem claim_C9_amended_exclude_error_zeroes_capacity (parseAddr : String → Option Nat)
    (hostsOf : String → Option (List Nat)) (prefixes exclude : List String) :
    (∀ exs, excludeSet parseAddr exclude = some exs →
      computeMaxSessionCount parseAddr hostsOf prefixes exclude =
        (prefixes.map (fun p =>
          match hostsOf p with
          | none => 0
          | some hs => (hs.dedup.filter (fun a => a ∉ exs)).length)).sum) ∧
    (excludeSet parseAddr exclude = none →
      computeMaxSessionCount parseAddr hostsOf prefixes exclude = 0) := by
  constructor
  · intro exs hex
    rw [computeMaxSessionCount_eq_sum]
    refine congrArg List.sum (List.map_congr_left ?_)
    intro p _
    unfold prefixContribution
    rw [hex]
    cases hostsOf p <;> rfl
  · intro hnone
    rw [computeMaxSessionCount_eq_sum]
    have hz : ∀ p ∈ prefixes, prefixContribution parseAddr hostsOf exclude p = 0 := by
      intro p _
      unfold prefixContribution
      rw [hnone]
    rw [List.map_congr_left hz]
    simp

/-- Witness for the amended claim C9: with a parseable exclude list, the
malformed prefix `zz` is skipped while `10.0.0.0/30` still contributes its
one non-excluded host; with the malformed exclude `bad`, two well-formed
prefixes yield capacity 0. -/
theorem claim_C9_amended_witness :
    computeMaxSessionCount cx8Parse cx8Hosts [("10.0.0.0/30"), ("zz")] [("10.0.0.1")] = 1 ∧
    computeMaxSessionCount cxParseNone cx9Hosts [("p1"), ("p2")] [("bad")] = 0 := by
  constructor
  · have h := (claim_C9_amended_exclude_error_zeroes_capacity cx8Parse cx8Hosts
      [("10.0.0.0/30"), ("zz")] [("10.0.0.1")]).1 [1] (by decide)
    rw [h]
    decide
  · exact (claim_C9_amended_exclude_error_zeroes_capacity cxParseNone cx9Hosts
      [("p1"), ("p2")] [("bad")]).2 (by decide)

/-- Invariant of the materializer walk: as long as the store's SGUP name
list is non-empty and the FIFO only holds store SGUP names, every emitted
create carries a desired SGUP drawn from the store's SGUP names — the
empty-FIFO branch is unreachable because the FIFO is re-populated whenever
it is found empty. -/
lemma createItemsGo_desired_mem (pa : String → Option Nat)
    (ho : String → Option (List Nat)) (vm : String) (existing all : List String)
    (hall : all ≠ []) :
    ∀ (pol : List PolicyEntry) (fifo : List String), (∀ x ∈ fifo, x ∈ all) →
      ∀ c ∈ createItemsGo pa ho vm existing all pol fifo,
        c.desiredUp.isSome = true ∧ Option.getD c.desiredUp ("") ∈ all := by
  intro pol
  induction pol with
  | nil =>
    intro fifo _ c hc
    simp [createItemsGo] at hc
  | cons e rest ih =>
    intro fifo hfifo c hc
    obtain ⟨en, eps, eex, epin⟩ := e
    cases en with
    | none => exact ih fifo hfifo c (by simpa [createItemsGo] using hc)
    | some nm =>
      cases eps with
      | none => exact ih fifo hfifo c (by simpa [createItemsGo] using hc)
      | some pfs =>
        by_cases hex : nm ∈ existing
        · exact ih fifo hfifo c (by simpa [createItemsGo, hex] using hc)
        · have hf1 : ∀ x ∈ (if fifo = [] then all else fifo), x ∈ all := by
            intro x hx
            by_cases hf : fifo = []
            · simpa [hf] using hx
            · exact hfifo x (by simpa [hf] using hx)
          have hf1ne : (if fifo = [] then all else fifo) ≠ [] := by
            by_cases hf : fifo = []
            · simpa [hf] using hall
            · simp [hf]
          cases epin with
          | some p =>
            by_cases hp : p ∈ all
            · rw [show
                  createItemsGo pa ho vm existing all
                      (⟨some nm, some pfs, eex, some p⟩ :: rest) fifo =
                    { name := nm, virtualMac := vm, allocatedSessionCount := 0,
                      maxSessionCount := computeMaxSessionCount pa ho pfs eex,
                      prefixes := pfs, desiredUp := some p } ::
                      createItemsGo pa ho vm existing all rest
                        (if fifo = [] then all else fifo)
                  from by simp [createItemsGo, hex, hp]] at hc
              rcases List.mem_cons.mp hc with hcc | hct
              · subst hcc
                exact ⟨rfl, hp⟩
              · exact ih _ hf1 c hct
            · exact ih _ hf1 c (by simpa [createItemsGo, hex, hp] using hc)
          | none =>
            obtain ⟨u, fr, hfr⟩ := List.exists_cons_of_ne_nil hf1ne
            have hu : u ∈ all := hf1 u (by rw [hfr]; exact List.mem_cons_self u fr)
            have hfr' : ∀ x ∈ fr, x ∈ all := by
              intro x hx
              exact hf1 x (by rw [hfr]; exact List.mem_cons_of_mem u hx)
            rw [show
                createItemsGo pa ho vm existing all
                    (⟨some nm, some pfs, eex, none⟩ :: rest) fifo =
                  { name := nm, virtualMac := vm, allocatedSessionCount := 0,
                    maxSessionCount := computeMaxSessionCount pa ho pfs eex,
                    prefixes := pfs, desiredUp := some u } ::
                    createItemsGo pa ho vm existing all rest fr
                from by simp [createItemsGo, hex, hfr]] at hc
            rcases List.mem_cons.mp hc with hcc | hct
            · subst hcc
              exact ⟨rfl, hu⟩
            · exact ih fr hfr' c hct

/-- Claim C2 (amended): the FIFO of SGUP names is initialized lazily and
re-initialized from `listSGUPs()` whenever it is found empty at an entry's
processing, so with a non-empty (frozen) SGUP list every shard created in
the invocation — pinned or drawn round-robin with wraparound — carries a
desired SGUP that is one of the store's SGUP names; a shard created with no
desired SGUP would require `listSGUPs()` to be empty, which the guard at
entry already excludes. -/
theorem claim_C2_amended_fifo_wraps (pa : String → Option Nat)
    (ho : String → Option (List Nat)) (vm : String) (pol : List PolicyEntry)
    (S : Snapshot) (hs : S.sgups ≠ []) :
    ∀ c ∈ createDefaultItems pa ho vm pol S,
      c.desiredUp.isSome = true ∧
        Option.getD c.desiredUp ("") ∈ S.sgups.map Sgup.name := by
  intro c hc
  unfold createDefaultItems at hc
  rw [if_neg hs] at hc
  have hall : S.sgups.map Sgup.name ≠ [] := by
    intro h
    exact hs (List.map_eq_nil_iff.mp h)
  exact createItemsGo_desired_mem pa ho vm _ _ hall pol [] (by simp) c hc

/-- The second shard created in the C2 counterexample scenario. -/
def cx2Create2 : CreateParams := ⟨("s2"), ("m"), 0, 0, [], some ("U1")⟩

/-- Witness for the amended claim C2: the shard created after the FIFO was
emptied still carries a desired SGUP from the store's SGUP list. -/
theorem claim_C2_amended_fifo_wraps_witness :
    (CreateParams.desiredUp cx2Create2).isSome = true ∧
      Option.getD (CreateParams.desiredUp cx2Create2) ("") ∈ cx2Snap.sgups.map Sgup.name := by
  exact claim_C2_amended_fifo_wraps cxParseNone cxHostsNone ("m") cx2Pol cx2Snap
    (by decide) cx2Create2 (by decide)

/-- The eligible SGUPs in the sense of the specification: positive capacity
and an owning service gateway known to the snapshot. Stated from the spec's
words, to be compared with the `sgup_load` dict the source builds. -/
def specEligible (sgups : List Sgup) (sgNames : List String) : List Sgup :=
  sgups.filter (fun u => decide (0 < u.maxSessionCount ∧ u.serviceGatewayName ∈ sgNames))

/-- The (name, load) pair an eligible SGUP contributes to `sgup_load`. -/
def pairF (u : Sgup) : String × ℚ := (u.name, loadOf u)

/-- Python's `min` fold: the result splits its input into a strict-greater
prefix, itself, and a tail, and its value is a lower bound of the whole
input — i.e. it is the first entry attaining the minimum value. -/
lemma minPair_decomp :
    ∀ (l : List (String × ℚ)) (b : String × ℚ),
      ∃ l₁ l₂, b :: l = l₁ ++ minPair b l :: l₂ ∧
        (∀ p ∈ b :: l, (minPair b l).2 ≤ p.2) ∧
        ∀ p ∈ l₁, (minPair b l).2 < p.2 := by
  intro l
  induction l with
  | nil =>
    intro b
    exact ⟨[], [], by simp [minPair], by simp [minPair], by simp⟩
  | cons p t ih =>
    intro b
    by_cases hlt : p.2 < b.2
    · have hm : minPair b (p :: t) = minPair p t := by
        simp [minPair, hlt]
      obtain ⟨l₁, l₂, heq, hmin, hfirst⟩ := ih p
      have hmp : (minPair p t).2 ≤ p.2 := hmin p (List.mem_cons_self p t)
      rw [hm]
      refine ⟨b :: l₁, l₂, ?_, ?_, ?_⟩
      · rw [List.cons_append, ← heq]
      · intro q hq
        rcases List.mem_cons.mp hq with hb | hq'
        · subst hb
          exact le_of_lt (lt_of_le_of_lt hmp hlt)
        · exact hmin q hq'
      · intro q hq
        rcases List.mem_cons.mp hq with hb | hq'
        · subst hb
          exact lt_of_le_of_lt hmp hlt
        · exact hfirst q hq'
    · have hm : minPair b (p :: t) = minPair b t := by
        simp [minPair, hlt]
      obtain ⟨l₁, l₂, heq, hmin, hfirst⟩ := ih b
      have hmb : (minPair b t).2 ≤ b.2 := hmin b (List.mem_cons_self b t)
      have hbp : b.2 ≤ p.2 := le_of_not_lt hlt
      rw [hm]
      cases l₁ with
      | nil =>
        have hb : b = minPair b t := by
          have := heq
          rw [List.nil_append] at this
          exact (List.cons.injEq _ _ _ _ ▸ this).1
        refine ⟨[], p :: t, ?_, ?_, by simp⟩
        · rw [List.nil_append, ← hb]
        · intro q hq
          rcases List.mem_cons.mp hq with h1 | hq'
          · subst h1
            exact hmb
          · rcases List.mem_cons.mp hq' with h2 | hq''
            · subst h2
              exact le_trans hmb hbp
            · exact hmin q (List.mem_cons_of_mem b hq'')
      | cons x l₁' =>
        have hx : b = x ∧ t = l₁' ++ minPair b t :: l₂ := by
          rw [List.cons_append] at heq
          exact ⟨(List.cons.injEq _ _ _ _ ▸ heq).1, (List.cons.injEq _ _ _ _ ▸ heq).2⟩
        have hxb : (minPair b t).2 < b.2 := by
          have := hfirst x (List.mem_cons_self x l₁')
          rw [← hx.1] at this
          exact this
        refine ⟨b :: p :: l₁', l₂, ?_, ?_, ?_⟩
        · rw [List.cons_append, List.cons_append, ← hx.2]
        · intro q hq
          rcases List.mem_cons.mp hq with h1 | hq'
          · subst h1
            exact hmb
          · rcases List.mem_cons.mp hq' with h2 | hq''
            · subst h2
              exact le_trans hmb hbp
            · exact hmin q (List.mem_cons_of_mem b hq'')
        · intro q hq
          rcases List.mem_cons.mp hq with h1 | hq'
          · subst h1
            exact hxb
          · rcases List.mem_cons.mp hq' with h2 | hq''
            · subst h2
              exact lt_of_lt_of_le hxb hbp
            · exact hfirst q (List.mem_cons_of_mem x hq'')

/-- Building the `sgup_load` dict over SGUPs with pairwise-distinct names
appends fresh keys in order: the dict is the eligible list mapped to
(name, load) pairs. -/
lemma sgupLoad_foldl_eq (sgNames : List String) :
    ∀ (sgups : List Sgup) (acc : List (String × ℚ)),
      (sgups.map Sgup.name).Nodup →
      (∀ u ∈ sgups, ∀ p ∈ acc, p.1 ≠ u.name) →
      sgups.foldl (sgupLoadStep sgNames) acc =
        acc ++ (specEligible sgups sgNames).map pairF := by
  intro sgups
  induction sgups with
  | nil =>
    intro acc _ _
    simp [specEligible]
  | cons u t ih =>
    intro acc hnd hfresh
    rw [List.map_cons, List.nodup_cons] at hnd
    rw [List.foldl_cons]
    by_cases hcond : 0 < u.maxSessionCount ∧ u.serviceGatewayName ∈ sgNames
    · have hstep : sgupLoadStep sgNames acc u = acc ++ [pairF u] := by
        unfold sgupLoadStep upsert
        rw [if_pos hcond]
        have hnone : acc.any (fun p => p.1 = u.name) = false := by
          rw [List.any_eq_false]
          intro p hp
          simpa using hfresh u (List.mem_cons_self u t) p hp
        rw [if_neg (by simp [hnone])]
        rfl
      rw [hstep, ih (acc ++ [pairF u]) hnd.2 ?fresh]
      · rw [show specEligible (u :: t) sgNames = u :: specEligible t sgNames from by
          simp [specEligible, hcond]]
        simp
      case fresh =>
        intro v hv p hp
        rcases List.mem_append.mp hp with hacc | hone
        · exact hfresh v (List.mem_cons_of_mem u hv) p hacc
        · have hpu : p = pairF u := by simpa using hone
          rw [hpu]
          intro hEq
          refine hnd.1 ?_
          rw [show Sgup.name u = v.name from hEq]
          exact List.mem_map_of_mem Sgup.name hv
    · have hstep : sgupLoadStep sgNames acc u = acc := by
        unfold sgupLoadStep
        rw [if_neg hcond]
      rw [hstep, ih acc hnd.2 (fun v hv => hfresh v (List.mem_cons_of_mem u hv))]
      rw [show specEligible (u :: t) sgNames = specEligible t sgNames from by
        simp [specEligible, hcond]]

/-- The `sgup_load` dict is the eligible list's (name, load) pairs when SGUP
names are pairwise distinct. -/
lemma sgupLoad_eq_map (sgups : List Sgup) (sgNames : List String)
    (hnd : (sgups.map Sgup.name).Nodup) :
    sgupLoad sgups sgNames = (specEligible sgups sgNames).map pairF := by
  unfold sgupLoad
  rw [sgupLoad_foldl_eq sgNames sgups [] hnd (by simp)]
  simp

/-- Claim C5: with no static pin and a re-selection required (stored desired
SGUP not among the snapshot's SGUP names), the selection considers exactly
the eligible SGUPs (positive capacity, known service gateway): if none is
eligible the shard is skipped with no write, otherwise the chosen SGUP is
the first eligible one attaining the minimum load, in store iteration
order. -/
theorem claim_C5_least_loaded_selection (pol : List PolicyEntry) (S : Snapshot) (h : Shard)
    (hpin : staticPin pol h.name = none)
    (hre : h.desiredUp ∉ S.sgups.map Sgup.name)
    (hnd : (S.sgups.map Sgup.name).Nodup) :
    (specEligible S.sgups (S.sgs.map ServiceGateway.name) = [] →
      processShard (staticPin pol h.name) (S.sgs.map ServiceGateway.name)
        (S.sgups.map Sgup.name) S.sgups S.tsfs S.ncs h = .skipShard) ∧
    (∀ e es, specEligible S.sgups (S.sgs.map ServiceGateway.name) = e :: es →
      ∃ l₁ u l₂, e :: es = l₁ ++ u :: l₂ ∧
        selectUp (staticPin pol h.name) (S.sgups.map Sgup.name)
          (S.sgs.map ServiceGateway.name) S.sgups h.desiredUp = .chosen u.name ∧
        (∀ v ∈ e :: es, loadOf u ≤ loadOf v) ∧
        ∀ v ∈ l₁, loadOf u < loadOf v) := by
  have hsel : selectUp (staticPin pol h.name) (S.sgups.map Sgup.name)
      (S.sgs.map ServiceGateway.name) S.sgups h.desiredUp =
      match minLoadKey (sgupLoad S.sgups (S.sgs.map ServiceGateway.name)) with
      | none => .skipShard
      | some u => .chosen u := by
    unfold selectUp
    rw [if_pos (Or.inr hre), hpin]
  constructor
  · intro hempty
    have hload : sgupLoad S.sgups (S.sgs.map ServiceGateway.name) = [] := by
      rw [sgupLoad_eq_map S.sgups _ hnd, hempty]
      rfl
    unfold processShard
    rw [hsel, hload]
    rfl
  · intro e es heligible
    have hload : sgupLoad S.sgups (S.sgs.map ServiceGateway.name) =
        pairF e :: es.map pairF := by
      rw [sgupLoad_eq_map S.sgups _ hnd, heligible]
      rfl
    obtain ⟨p₁, p₂, hpeq, hpmin, hpfirst⟩ := minPair_decomp (es.map pairF) (pairF e)
    have hpeq' : (e :: es).map pairF = p₁ ++ minPair (pairF e) (es.map pairF) :: p₂ := by
      rw [List.map_cons]
      exact hpeq
    rcases List.map_eq_append_iff.mp hpeq' with ⟨l₁, l₂', hsplit, hmap₁, hmap₂⟩
    rcases List.map_eq_cons_iff.mp hmap₂ with ⟨u, l₂, hsplit₂, hu, hmapl₂⟩
    refine ⟨l₁, u, l₂, by rw [hsplit, hsplit₂], ?_, ?_, ?_⟩
    · rw [hsel, hload]
      show SelectResult.chosen (minPair (pairF e) (es.map pairF)).1 = _
      rw [← hu]
      rfl
    · intro v hv
      have := hpmin (pairF v) (by
        rw [show pairF v ∈ pairF e :: es.map pairF ↔
            pairF v ∈ (e :: es).map pairF from by rw [List.map_cons]]
        exact List.mem_map_of_mem pairF hv)
      rw [← hu] at this
      exact this
    · intro v hv
      have := hpfirst (pairF v) (by rw [← hmap₁]; exact List.mem_map_of_mem pairF hv)
      rw [← hu] at this
      exact this

/-- An ineligible SGUP: zero capacity. -/
def cx5SgupZero : Sgup := ⟨("U0"), ("gX"), 0, 0, ("e")
  , []⟩

/-- Shard `s` with empty stored desired state, for the C5 witness. -/
def cx5Shard : Shard := ⟨("s"), (""), [], []⟩

/-- Snapshot whose only SGUP has zero capacity: no SGUP is eligible. -/
def cx5Snap : Snapshot := ⟨[], [cx5SgupZero], [cx5Shard], [], []⟩

/-- Witness for claim C5: with no eligible SGUP the shard is skipped with no
write. -/
theorem claim_C5_least_loaded_selection_witness :
    processShard (staticPin [] cx5Shard.name) (cx5Snap.sgs.map ServiceGateway.name)
      (cx5Snap.sgups.map Sgup.name) cx5Snap.sgups cx5Snap.tsfs cx5Snap.ncs cx5Shard =
      .skipShard := by
  exact (claim_C5_least_loaded_selection [] cx5Snap cx5Shard rfl (by decide)
    (by decide)).1 (by decide)

/-- The spec's literal least-loaded scenario: loads 10/100, 5/100, 50/100 —
the selection picks `B`. -/
lemma leastLoaded_picks_B :
    selectUp none [("A"), ("B"), ("C")] [("g")]
      [⟨("A"), ("g"), 100, 10, ("ea"), []⟩, ⟨("B"), ("g"), 100, 5, ("eb"), []⟩,
        ⟨("C"), ("g"), 100, 50, ("ec"), []⟩] ("") = .chosen ("B") := by
  decide

/-! ### Sweep decomposition lemmas -/

/-- The update a shard's processing emits, if any. -/
def writeOf (pol : List PolicyEntry) (sgNames upNames : List String) (sgups : List Sgup)
    (tsfs : List Tsf) (ncs : List NetworkConnection) (h : Shard) : Option ShardUpdate :=
  match processShard (staticPin pol h.name) sgNames upNames sgups tsfs ncs h with
  | .write u => some u
  | _ => none

/-- A shard after its own processing's update (if any) has been applied. -/
def stepShard (pol : List PolicyEntry) (sgNames upNames : List String) (sgups : List Sgup)
    (tsfs : List Tsf) (ncs : List NetworkConnection) (h : Shard) : Shard :=
  match processShard (staticPin pol h.name) sgNames upNames sgups tsfs ncs h with
  | .write u => applyShardUpdate h u
  | _ => h

/-- An emitted update carries the processed shard's name. -/
lemma processShard_write_name (staticUp : Option String) (sgNames upNames : List String)
    (sgups : List Sgup) (tsfs : List Tsf) (ncs : List NetworkConnection) (h : Shard)
    (u : ShardUpdate)
    (hw : processShard staticUp sgNames upNames sgups tsfs ncs h = .write u) :
    u.name = h.name := by
  unfold processShard at hw
  cases hsel : selectUp staticUp upNames sgNames sgups h.desiredUp with
  | abortSweep => simp only [hsel] at hw; cases hw
  | skipShard => simp only [hsel] at hw; cases hw
  | chosen c =>
    simp only [hsel] at hw
    cases hfind : sgups.find? (fun v => v.name == c) with
    | none => simp only [hfind] at hw; cases hw
    | some up =>
      simp only [hfind] at hw
      by_cases hfp : fingerOf up.name (matchedNcNames tsfs ncs up.defaultEndpointName) ≠
          fingerActive h
      · rw [if_pos hfp] at hw
        cases hw
        rfl
      · rw [if_neg hfp] at hw
        cases hw

/-- Once a selection and an SGUP lookup are fixed, a shard's processing
either writes the full update (fingerprints differ) or writes nothing
(fingerprints agree). -/
lemma processShard_of_chosen (staticUp : Option String) (sgNames upNames : List String)
    (sgups : List Sgup) (tsfs : List Tsf) (ncs : List NetworkConnection) (h : Shard)
    (c : String) (up : Sgup)
    (hsel : selectUp staticUp upNames sgNames sgups h.desiredUp = .chosen c)
    (hfind : sgups.find? (fun v => v.name == c) = some up) :
    (fingerOf up.name (matchedNcNames tsfs ncs up.defaultEndpointName) ≠ fingerActive h ∧
      processShard staticUp sgNames upNames sgups tsfs ncs h = .write
        { name := h.name, desiredUp := some up.name,
          desiredNc := some (matchedNcNames tsfs ncs up.defaultEndpointName),
          tsfNc := some (tsfNcMap tsfs ncs up.defaultEndpointName),
          serviceGroupsSupported := some (up.supportedServiceGroup.filter (fun g => g ≠ "")),
          prefixes := h.prefixes }) ∨
    (fingerOf up.name (matchedNcNames tsfs ncs up.defaultEndpointName) = fingerActive h ∧
      processShard staticUp sgNames upNames sgups tsfs ncs h = .noWrite) := by
  by_cases hfp : fingerOf up.name (matchedNcNames tsfs ncs up.defaultEndpointName) ≠
      fingerActive h
  · refine Or.inl ⟨hfp, ?_⟩
    unfold processShard
    simp only [hsel, hfind]
    rw [if_pos hfp]
  · refine Or.inr ⟨not_not.mp hfp, ?_⟩
    unfold processShard
    simp only [hsel, hfind]
    rw [if_neg hfp]

/-- A sweep that never hits the abandon-everything `return` is the
concatenation of the per-shard updates. -/
lemma runSweep_eq_filterMap (pol : List PolicyEntry) (sgNames upNames : List String)
    (sgups : List Sgup) (tsfs : List Tsf) (ncs : List NetworkConnection) :
    ∀ l : List Shard,
      (∀ h ∈ l,
        processShard (staticPin pol h.name) sgNames upNames sgups tsfs ncs h ≠ .abortSweep) →
      runSweep pol sgNames upNames sgups tsfs ncs l =
        l.filterMap (writeOf pol sgNames upNames sgups tsfs ncs) := by
  intro l
  induction l with
  | nil => intro _; rfl
  | cons h t ih =>
    intro hna
    rw [List.filterMap_cons]
    cases hres : processShard (staticPin pol h.name) sgNames upNames sgups tsfs ncs h with
    | abortSweep => exact absurd hres (hna h (List.mem_cons_self h t))
    | skipShard =>
      rw [show writeOf pol sgNames upNames sgups tsfs ncs h = none from by
        simp [writeOf, hres]]
      rw [show runSweep pol sgNames upNames sgups tsfs ncs (h :: t) =
        runSweep pol sgNames upNames sgups tsfs ncs t from by simp [runSweep, hres]]
      exact ih (fun x hx => hna x (List.mem_cons_of_mem h hx))
    | noWrite =>
      rw [show writeOf pol sgNames upNames sgups tsfs ncs h = none from by
        simp [writeOf, hres]]
      rw [show runSweep pol sgNames upNames sgups tsfs ncs (h :: t) =
        runSweep pol sgNames upNames sgups tsfs ncs t from by simp [runSweep, hres]]
      exact ih (fun x hx => hna x (List.mem_cons_of_mem h hx))
    | write u =>
      rw [show writeOf pol sgNames upNames sgups tsfs ncs h = some u from by
        simp [writeOf, hres]]
      rw [show runSweep pol sgNames upNames sgups tsfs ncs (h :: t) =
        u :: runSweep pol sgNames upNames sgups tsfs ncs t from by simp [runSweep, hres]]
      rw [ih (fun x hx => hna x (List.mem_cons_of_mem h hx))]

/-- Applying updates never changes a shard's name. -/
lemma applyShardUpdate_name (h : Shard) (u : ShardUpdate) :
    (applyShardUpdate h u).name = h.name := rfl

/-- A step never changes a shard's name. -/
lemma stepShard_name (pol : List PolicyEntry) (sgNames upNames : List String)
    (sgups : List Sgup) (tsfs : List Tsf) (ncs : List NetworkConnection) (h : Shard) :
    (stepShard pol sgNames upNames sgups tsfs ncs h).name = h.name := by
  unfold stepShard
  cases processShard (staticPin pol h.name) sgNames upNames sgups tsfs ncs h <;> rfl

/-- Every update a partial sweep emits bears the name of a shard of the
swept list. -/
lemma writeOf_mem_name (pol : List PolicyEntry) (sgNames upNames : List String)
    (sgups : List Sgup) (tsfs : List Tsf) (ncs : List NetworkConnection)
    (l : List Shard) (u : ShardUpdate)
    (hu : u ∈ l.filterMap (writeOf pol sgNames upNames sgups tsfs ncs)) :
    u.name ∈ l.map Shard.name := by
  rcases List.mem_filterMap.mp hu with ⟨h, hmem, hwo⟩
  unfold writeOf at hwo
  cases hres : processShard (staticPin pol h.name) sgNames upNames sgups tsfs ncs h with
  | write v =>
    rw [hres] at hwo
    cases hwo
    rw [processShard_write_name _ _ _ _ _ _ _ _ hres]
    exact List.mem_map_of_mem Shard.name hmem
  | abortSweep => rw [hres] at hwo; cases hwo
  | skipShard => rw [hres] at hwo; cases hwo
  | noWrite => rw [hres] at hwo; cases hwo

/-- Applying an update whose name occurs nowhere in a list leaves it
untouched. -/
lemma map_applyOne_of_not_mem (l : List Shard) (u : ShardUpdate)
    (hne : ∀ y ∈ l, y.name ≠ u.name) :
    l.map (fun h => if h.name = u.name then applyShardUpdate h u else h) = l := by
  induction l with
  | nil => rfl
  | cons y t ih =>
    rw [List.map_cons, if_neg (hne y (List.mem_cons_self y t)),
      ih (fun z hz => hne z (List.mem_cons_of_mem y hz))]

/-- Updates that never target the head shard commute past it. -/
lemma applyUpdates_cons_shard (x : Shard) :
    ∀ (us : List ShardUpdate) (t : List Shard), (∀ u ∈ us, u.name ≠ x.name) →
      applyUpdates (x :: t) us = x :: applyUpdates t us := by
  intro us
  induction us with
  | nil => intro t _; rfl
  | cons u us ih =>
    intro t hx
    show applyUpdates ((x :: t).map
      (fun h => if h.name = u.name then applyShardUpdate h u else h)) us = _
    rw [List.map_cons, if_neg (fun hEq =>
      hx u (List.mem_cons_self u us) hEq.symm)]
    exact ih _ (fun v hv => hx v (List.mem_cons_of_mem u hv))

/-- Under pairwise-distinct shard names, applying the updates of a completed
sweep realizes exactly the per-shard step on every shard. -/
lemma applyUpdates_filterMap_eq_map_step (pol : List PolicyEntry)
    (sgNames upNames : List String) (sgups : List Sgup) (tsfs : List Tsf)
    (ncs : List NetworkConnection) :
    ∀ l : List Shard, (l.map Shard.name).Nodup →
      applyUpdates l (l.filterMap (writeOf pol sgNames upNames sgups tsfs ncs)) =
        l.map (stepShard pol sgNames upNames sgups tsfs ncs) := by
  intro l
  induction l with
  | nil => intro _; rfl
  | cons x t ih =>
    intro hnd
    rw [List.map_cons, List.nodup_cons] at hnd
    have hxnott : ∀ u ∈ t.filterMap (writeOf pol sgNames upNames sgups tsfs ncs),
        u.name ≠ x.name := by
      intro u hu hEq
      exact hnd.1 (hEq ▸ writeOf_mem_name pol sgNames upNames sgups tsfs ncs t u hu)
    rw [List.filterMap_cons]
    cases hres : processShard (staticPin pol x.name) sgNames upNames sgups tsfs ncs x with
    | write u =>
      rw [show writeOf pol sgNames upNames sgups tsfs ncs x = some u from by
        simp [writeOf, hres]]
      have hun : u.name = x.name := processShard_write_name _ _ _ _ _ _ _ _ hres
      show applyUpdates ((x :: t).map
        (fun h => if h.name = u.name then applyShardUpdate h u else h)) _ = _
      rw [List.map_cons, if_pos hun.symm,
        map_applyOne_of_not_mem t u (by
          intro y hy hEq
          exact hnd.1 ((hEq.trans hun) ▸ List.mem_map_of_mem Shard.name hy)),
        applyUpdates_cons_shard _ _ _ (by
          intro v hv hEq
          exact hxnott v hv (by rw [hEq]; rfl)),
        ih hnd.2, List.map_cons,
        show stepShard pol sgNames upNames sgups tsfs ncs x = applyShardUpdate x u from by
          simp [stepShard, hres]]
    | abortSweep =>
      rw [show writeOf pol sgNames upNames sgups tsfs ncs x = none from by
        simp [writeOf, hres]]
      rw [applyUpdates_cons_shard _ _ _ hxnott, ih hnd.2, List.map_cons,
        show stepShard pol sgNames upNames sgups tsfs ncs x = x from by
          simp [stepShard, hres]]
    | skipShard =>
      rw [show writeOf pol sgNames upNames sgups tsfs ncs x = none from by
        simp [writeOf, hres]]
      rw [applyUpdates_cons_shard _ _ _ hxnott, ih hnd.2, List.map_cons,
        show stepShard pol sgNames upNames sgups tsfs ncs x = x from by
          simp [stepShard, hres]]
    | noWrite =>
      rw [show writeOf pol sgNames upNames sgups tsfs ncs x = none from by
        simp [writeOf, hres]]
      rw [applyUpdates_cons_shard _ _ _ hxnott, ih hnd.2, List.map_cons,
        show stepShard pol sgNames upNames sgups tsfs ncs x = x from by
          simp [stepShard, hres]]

/-- Two slash-free character lists followed by a slash and anything are
determined by the joint list. -/
lemma append_slash_inj :
    ∀ (a : List Char), ∀ {b x y : List Char}, '/' ∉ a → '/' ∉ b →
      a ++ '/' :: x = b ++ '/' :: y → a = b := by
  intro a
  induction a with
  | nil =>
    intro b x y _ hb h
    cases b with
    | nil => rfl
    | cons c bs =>
      rw [List.nil_append, List.cons_append] at h
      have hc : c = '/' := (List.cons.injEq _ _ _ _ ▸ h).1.symm
      exact absurd (hc ▸ List.mem_cons_self c bs) hb
  | cons c as ih =>
    intro b x y ha hb h
    cases b with
    | nil =>
      rw [List.cons_append, List.nil_append] at h
      have hc : c = '/' := (List.cons.injEq _ _ _ _ ▸ h).1
      exact absurd (hc ▸ List.mem_cons_self c as) ha
    | cons d bs =>
      rw [List.cons_append, List.cons_append] at h
      have hcd := (List.cons.injEq _ _ _ _ ▸ h).1
      have htl := (List.cons.injEq _ _ _ _ ▸ h).2
      rw [hcd, ih (fun hm => ha (List.mem_cons_of_mem c hm))
        (fun hm => hb (List.mem_cons_of_mem d hm)) htl]

/-- Equal fingerprint strings with slash-free UP-name parts have equal
UP-name parts: the `"/"` separator is unambiguous then. -/
lemma fingerOf_inj_up {a b : String} {x y : List String}
    (ha : '/' ∉ a.data) (hb : '/' ∉ b.data)
    (h : fingerOf a x = fingerOf b y) : a = b := by
  unfold fingerOf at h
  have hd := congrArg String.data h
  rw [String.data_append, String.data_append, String.data_append, String.data_append] at hd
  have hslash : slashStr.data = ['/'] := rfl
  rw [hslash, List.append_assoc, List.append_assoc, List.singleton_append,
    List.singleton_append] at hd
  exact String.ext (append_slash_inj a.data ha hb hd)

/-- When a static pin exists and names a known SGUP, the selection step
always chooses the pin: either a re-selection fires and takes the static
branch, or no re-selection is needed because the stored UP already equals
the pin. -/
lemma selectUp_pin (P : String) (upNames sgNames : List String) (sgups : List Sgup)
    (s : String) (hP : P ∈ upNames) :
    selectUp (some P) upNames sgNames sgups s = .chosen P := by
  unfold selectUp
  by_cases hc : ((some P : Option String).isSome ∧ (some P : Option String) ≠ some s) ∨
      s ∉ upNames
  · rw [if_pos hc]
    simp [hP]
  · rw [if_neg hc]
    have hps : P = s := by
      rcases not_or.mp hc with ⟨hA, _⟩
      by_contra hne
      exact hA ⟨rfl, by simpa using hne⟩
    rw [hps]

/-- A name occurring among a list's names is found by `find?`, and the hit
bears that name. -/
lemma find?_name_mem (sgups : List Sgup) (P : String) (hP : P ∈ sgups.map Sgup.name) :
    ∃ up, sgups.find? (fun v => v.name == P) = some up ∧ up.name = P := by
  rcases List.mem_map.mp hP with ⟨w, hw, hwn⟩
  have hsome : (sgups.find? (fun v => v.name == P)).isSome := by
    rw [List.find?_isSome]
    exact ⟨w, hw, by simp [hwn]⟩
  rcases Option.isSome_iff_exists.mp hsome with ⟨up, hup⟩
  have hp := List.find?_some hup
  exact ⟨up, hup, by simpa using hp⟩

/-- Claim C6 (amended): after a completed sweep (none of the shards hits the
abandon-everything static-pin branch) on a snapshot with SGUPs present and
pairwise-distinct shard names, a shard whose static pin names a known SGUP
ends with its desired SGUP equal to the pin — provided neither the pin nor
the shard's previously stored desired SGUP contains the `/` fingerprint
separator (otherwise a fingerprint-string collision can suppress the
write). -/
theorem claim_C6_amended_static_pin_honored (pol : List PolicyEntry) (S : Snapshot)
    (h : Shard) (P : String) (hmem : h ∈ S.shards)
    (hpin : staticPin pol h.name = some P)
    (hP : P ∈ S.sgups.map Sgup.name)
    (hs : S.sgups ≠ [])
    (hnd : (S.shards.map Shard.name).Nodup)
    (hnoabort : ∀ h' ∈ S.shards,
      processShard (staticPin pol h'.name) (S.sgs.map ServiceGateway.name)
        (S.sgups.map Sgup.name) S.sgups S.tsfs S.ncs h' ≠ .abortSweep)
    (hslashP : '/' ∉ P.data) (hslashStored : '/' ∉ h.desiredUp.data) :
    ∀ h' ∈ applyUpdates S.shards (mapShards pol S), h'.name = h.name →
      h'.desiredUp = P := by
  have hsteps : applyUpdates S.shards (mapShards pol S) =
      S.shards.map (stepShard pol (S.sgs.map ServiceGateway.name)
        (S.sgups.map Sgup.name) S.sgups S.tsfs S.ncs) := by
    unfold mapShards
    rw [if_neg hs, runSweep_eq_filterMap _ _ _ _ _ _ S.shards hnoabort,
      applyUpdates_filterMap_eq_map_step _ _ _ _ _ _ S.shards hnd]
  intro h' hmem' hname
  rw [hsteps] at hmem'
  rcases List.mem_map.mp hmem' with ⟨h'', hm'', hstep⟩
  have hname'' : h''.name = h.name := by
    rw [← hname, ← hstep, stepShard_name]
  have hhh : h'' = h := List.inj_on_of_nodup_map hnd hm'' hmem hname''
  subst hhh
  rw [← hstep]
  have hselP : selectUp (staticPin pol h''.name) (S.sgups.map Sgup.name)
      (S.sgs.map ServiceGateway.name) S.sgups h''.desiredUp = .chosen P := by
    rw [hpin]
    exact selectUp_pin P _ _ _ _ hP
  obtain ⟨up, hfind, hupname⟩ := find?_name_mem S.sgups P hP
  rcases processShard_of_chosen (staticPin pol h''.name) (S.sgs.map ServiceGateway.name)
      (S.sgups.map Sgup.name) S.sgups S.tsfs S.ncs h'' P up hselP hfind with
    ⟨_, hw⟩ | ⟨heqf, hnw⟩
  · unfold stepShard
    simp only [hw]
    show (applyShardUpdate h'' _).desiredUp = P
    simp [applyShardUpdate, hupname]
  · unfold stepShard
    simp only [hnw]
    have heqf' : fingerOf up.name
        (matchedNcNames S.tsfs S.ncs up.defaultEndpointName) =
        fingerOf h''.desiredUp h''.desiredNc := heqf
    have hupslash : '/' ∉ up.name.data := by
      rw [hupname]
      exact hslashP
    have hud : up.name = h''.desiredUp := fingerOf_inj_up hupslash hslashStored heqf'
    rw [← hud, hupname]

/-- Policy pinning `s1` to the available SGUP `A`. -/
def cx6wPol : List PolicyEntry := [⟨some ("s1"), none, [], some ("A")⟩]

/-- Snapshot with SGUP `A` and the unbound shard `s1`. -/
def cx6wSnap : Snapshot := ⟨[⟨("g1")⟩], [cxSgupA], [cxShardS1], [], []⟩

/-- Witness for the amended claim C6: after the sweep the pinned shard's
desired SGUP is the pin `A`. -/
theorem claim_C6_amended_static_pin_honored_witness :
    Shard.desiredUp ⟨("s1"), ("A"), [], []⟩ = ("A") := by
  exact claim_C6_amended_static_pin_honored cx6wPol cx6wSnap cxShardS1 ("A")
    (by decide) (by decide) (by decide) (by decide) (by decide) (by decide) (by decide)
    (by decide) ⟨("s1"), ("A"), [], []⟩ (by decide) (by decide)

/-- After a selection has chosen the SGUP `up` (looked up successfully), a
later selection starting from stored UP `up.name` keeps it: the pin, when
present, already equals it, and it is a known SGUP name. -/
lemma selectUp_refix (st : Option String) (upN sgN : List String) (sgups : List Sgup)
    (s c : String) (up : Sgup) (hupN : upN = sgups.map Sgup.name)
    (hsel : selectUp st upN sgN sgups s = .chosen c)
    (hfind : sgups.find? (fun v => v.name == c) = some up) :
    selectUp st upN sgN sgups up.name = .chosen up.name := by
  have hupc : up.name = c := by simpa using List.find?_some hfind
  have hmemup : up.name ∈ upN := by
    rw [hupN]
    exact List.mem_map_of_mem Sgup.name (List.mem_of_find?_eq_some hfind)
  unfold selectUp at hsel ⊢
  by_cases hc1 : (st.isSome ∧ st ≠ some s) ∨ s ∉ upN
  · rw [if_pos hc1] at hsel
    cases st with
    | some p =>
      by_cases hm : p ∈ upN
      · simp only [if_pos hm] at hsel
        have hpc : p = c := by
          injection hsel
        have hnc : ¬(((some p : Option String).isSome ∧ (some p : Option String) ≠
            some up.name) ∨ up.name ∉ upN) := by
          intro hor
          rcases hor with ⟨_, hne⟩ | hnm
          · exact hne (by rw [hupc, hpc])
          · exact hnm hmemup
        rw [if_neg hnc]
      · simp only [if_neg hm] at hsel
        cases hsel
    | none =>
      have hnc : ¬(((none : Option String).isSome ∧ (none : Option String) ≠
          some up.name) ∨ up.name ∉ upN) := by
        intro hor
        rcases hor with ⟨hsome, _⟩ | hnm
        · simp at hsome
        · exact hnm hmemup
      rw [if_neg hnc]
  · rw [if_neg hc1] at hsel
    have hsc : s = c := by
      injection hsel
    rcases not_or.mp hc1 with ⟨hA, _⟩
    have hnc : ¬((st.isSome ∧ st ≠ some up.name) ∨ up.name ∉ upN) := by
      intro hor
      rcases hor with ⟨hsome, hne⟩ | hnm
      · refine hA ⟨hsome, ?_⟩
        rw [show s = up.name from by rw [hsc, hupc]]
        exact hne
      · exact hnm hmemup
    rw [if_neg hnc]

/-- Fixed point of one shard's reconciliation: applying the update a shard's
processing emitted makes the next processing of that shard a no-op — the
same SGUP is retained and the stored state now carries the intended
fingerprint. -/
lemma processShard_write_fixed (st : Option String) (sgN upN : List String)
    (sgups : List Sgup) (tsfs : List Tsf) (ncs : List NetworkConnection)
    (h : Shard) (u : ShardUpdate) (hupN : upN = sgups.map Sgup.name)
    (hw : processShard st sgN upN sgups tsfs ncs h = .write u) :
    processShard st sgN upN sgups tsfs ncs (applyShardUpdate h u) = .noWrite := by
  unfold processShard at hw
  cases hsel : selectUp st upN sgN sgups h.desiredUp with
  | abortSweep => simp only [hsel] at hw; cases hw
  | skipShard => simp only [hsel] at hw; cases hw
  | chosen c =>
    simp only [hsel] at hw
    cases hfind : sgups.find? (fun v => v.name == c) with
    | none => simp only [hfind] at hw; cases hw
    | some up =>
      simp only [hfind] at hw
      by_cases hfp : fingerOf up.name (matchedNcNames tsfs ncs up.defaultEndpointName) ≠
          fingerActive h
      · rw [if_pos hfp] at hw
        have hu : u =
            { name := h.name, desiredUp := some up.name,
              desiredNc := some (matchedNcNames tsfs ncs up.defaultEndpointName),
              tsfNc := some (tsfNcMap tsfs ncs up.defaultEndpointName),
              serviceGroupsSupported :=
                some (up.supportedServiceGroup.filter (fun g => g ≠ "")),
              prefixes := h.prefixes } := by
          injection hw with hw'
          exact hw'.symm
        have hdu : (applyShardUpdate h u).desiredUp = up.name := by
          rw [hu]
          rfl
        have hsel2 : selectUp st upN sgN sgups (applyShardUpdate h u).desiredUp =
            .chosen up.name := by
          rw [hdu]
          exact selectUp_refix st upN sgN sgups h.desiredUp c up hupN hsel hfind
        have hupc : up.name = c := by simpa using List.find?_some hfind
        have hfind2 : sgups.find? (fun v => v.name == up.name) = some up := by
          rw [hupc]
          exact hfind
        have hfa : fingerActive (applyShardUpdate h u) =
            fingerOf up.name (matchedNcNames tsfs ncs up.defaultEndpointName) := by
          rw [hu]
          rfl
        unfold processShard
        simp only [hsel2, hfind2]
        rw [if_neg (fun hne => hne hfa.symm)]
      · rw [if_neg hfp] at hw
        cases hw

/-- Every update a partial sweep emits bears the name of a swept shard. -/
lemma runSweep_mem_name (pol : List PolicyEntry) (sgN upN : List String)
    (sgups : List Sgup) (tsfs : List Tsf) (ncs : List NetworkConnection) :
    ∀ (l : List Shard) (u : ShardUpdate), u ∈ runSweep pol sgN upN sgups tsfs ncs l →
      u.name ∈ l.map Shard.name := by
  intro l
  induction l with
  | nil => intro u hu; cases hu
  | cons x t ih =>
    intro u hu
    cases hres : processShard (staticPin pol x.name) sgN upN sgups tsfs ncs x with
    | abortSweep =>
      rw [show runSweep pol sgN upN sgups tsfs ncs (x :: t) = [] from by
        simp [runSweep, hres]] at hu
      cases hu
    | skipShard =>
      rw [show runSweep pol sgN upN sgups tsfs ncs (x :: t) =
        runSweep pol sgN upN sgups tsfs ncs t from by simp [runSweep, hres]] at hu
      exact List.mem_cons_of_mem x.name (ih u hu)
    | noWrite =>
      rw [show runSweep pol sgN upN sgups tsfs ncs (x :: t) =
        runSweep pol sgN upN sgups tsfs ncs t from by simp [runSweep, hres]] at hu
      exact List.mem_cons_of_mem x.name (ih u hu)
    | write v =>
      rw [show runSweep pol sgN upN sgups tsfs ncs (x :: t) =
        v :: runSweep pol sgN upN sgups tsfs ncs t from by simp [runSweep, hres]] at hu
      rcases List.mem_cons.mp hu with huv | hut
      · rw [huv, processShard_write_name _ _ _ _ _ _ _ _ hres]
        exact List.mem_cons_self x.name _
      · exact List.mem_cons_of_mem x.name (ih u hut)

/-- Core of the idempotence property: under pairwise-distinct shard names,
re-sweeping the shard list after applying the first sweep's updates emits
nothing. -/
lemma runSweep_apply_fixed (pol : List PolicyEntry) (sgN upN : List String)
    (sgups : List Sgup) (tsfs : List Tsf) (ncs : List NetworkConnection)
    (hupN : upN = sgups.map Sgup.name) :
    ∀ l : List Shard, (l.map Shard.name).Nodup →
      runSweep pol sgN upN sgups tsfs ncs
        (applyUpdates l (runSweep pol sgN upN sgups tsfs ncs l)) = [] := by
  intro l
  induction l with
  | nil => intro _; rfl
  | cons x t ih =>
    intro hnd
    rw [List.map_cons, List.nodup_cons] at hnd
    have hxnott : ∀ u ∈ runSweep pol sgN upN sgups tsfs ncs t, u.name ≠ x.name := by
      intro u hu hEq
      exact hnd.1 (hEq ▸ runSweep_mem_name pol sgN upN sgups tsfs ncs t u hu)
    cases hres : processShard (staticPin pol x.name) sgN upN sgups tsfs ncs x with
    | abortSweep =>
      rw [show runSweep pol sgN upN sgups tsfs ncs (x :: t) = [] from by
        simp [runSweep, hres]]
      show runSweep pol sgN upN sgups tsfs ncs (x :: t) = []
      simp [runSweep, hres]
    | skipShard =>
      rw [show runSweep pol sgN upN sgups tsfs ncs (x :: t) =
        runSweep pol sgN upN sgups tsfs ncs t from by simp [runSweep, hres]]
      rw [applyUpdates_cons_shard x _ t hxnott]
      rw [show runSweep pol sgN upN sgups tsfs ncs
          (x :: applyUpdates t (runSweep pol sgN upN sgups tsfs ncs t)) =
        runSweep pol sgN upN sgups tsfs ncs
          (applyUpdates t (runSweep pol sgN upN sgups tsfs ncs t)) from by
        simp [runSweep, hres]]
      exact ih hnd.2
    | noWrite =>
      rw [show runSweep pol sgN upN sgups tsfs ncs (x :: t) =
        runSweep pol sgN upN sgups tsfs ncs t from by simp [runSweep, hres]]
      rw [applyUpdates_cons_shard x _ t hxnott]
      rw [show runSweep pol sgN upN sgups tsfs ncs
          (x :: applyUpdates t (runSweep pol sgN upN sgups tsfs ncs t)) =
        runSweep pol sgN upN sgups tsfs ncs
          (applyUpdates t (runSweep pol sgN upN sgups tsfs ncs t)) from by
        simp [runSweep, hres]]
      exact ih hnd.2
    | write u =>
      have hun : u.name = x.name := processShard_write_name _ _ _ _ _ _ _ _ hres
      rw [show runSweep pol sgN upN sgups tsfs ncs (x :: t) =
        u :: runSweep pol sgN upN sgups tsfs ncs t from by simp [runSweep, hres]]
      show runSweep pol sgN upN sgups tsfs ncs
        (applyUpdates ((x :: t).map
          (fun h => if h.name = u.name then applyShardUpdate h u else h))
          (runSweep pol sgN upN sgups tsfs ncs t)) = []
      rw [List.map_cons, if_pos hun.symm,
        map_applyOne_of_not_mem t u (by
          intro y hy hEq
          exact hnd.1 ((hEq.trans hun) ▸ List.mem_map_of_mem Shard.name hy)),
        applyUpdates_cons_shard _ _ _ (by
          intro v hv hEq
          exact hxnott v hv (by rw [hEq]; rfl))]
      have hfix : processShard (staticPin pol (applyShardUpdate x u).name) sgN upN sgups
          tsfs ncs (applyShardUpdate x u) = .noWrite := by
        rw [show (applyShardUpdate x u).name = x.name from rfl]
        exact processShard_write_fixed _ _ _ _ _ _ x u hupN hres
      rw [show runSweep pol sgN upN sgups tsfs ncs
          (applyShardUpdate x u :: applyUpdates t (runSweep pol sgN upN sgups tsfs ncs t)) =
        runSweep pol sgN upN sgups tsfs ncs
          (applyUpdates t (runSweep pol sgN upN sgups tsfs ncs t)) from by
        simp [runSweep, hfix]]
      exact ih hnd.2

/-- Claim C4 (amended): on a snapshot whose SGUP list is non-empty (so the
empty-plane shortcut is not taken) and whose shard names are pairwise
distinct, running the sweep again after its updates have been applied to
the store issues zero `updateShard` calls: active and desired fingerprints
coincide on the second run. (With an empty SGUP list the claim fails: the
clearing update does not reset the stored scalar desired SGUP, so the
shortcut re-issues it every sweep.) -/
theorem claim_C4_amended_idempotent_when_sgups_nonempty (pol : List PolicyEntry)
    (S : Snapshot) (hs : S.sgups ≠ []) (hnd : (S.shards.map Shard.name).Nodup) :
    mapShards pol { S with shards := applyUpdates S.shards (mapShards pol S) } = [] := by
  have hinner : mapShards pol S = runSweep pol (S.sgs.map ServiceGateway.name)
      (S.sgups.map Sgup.name) S.sgups S.tsfs S.ncs S.shards := by
    unfold mapShards
    rw [if_neg hs]
  have houter : ∀ X : List Shard, mapShards pol { S with shards := X } =
      runSweep pol (S.sgs.map ServiceGateway.name) (S.sgups.map Sgup.name)
        S.sgups S.tsfs S.ncs X := by
    intro X
    unfold mapShards
    rw [if_neg (show ({ S with shards := X } : Snapshot).sgups ≠ [] from hs)]
  rw [houter, hinner]
  exact runSweep_apply_fixed pol _ _ S.sgups S.tsfs S.ncs rfl S.shards hnd

/-- Snapshot with one SGUP and one unbound shard, for the C4 witness. -/
def cx4wSnap : Snapshot := ⟨[⟨("g1")⟩], [cxSgupA], [cxShardS1], [], []⟩

/-- Witness for the amended claim C4: the first sweep writes, and after its
update is applied the second sweep issues nothing. -/
theorem claim_C4_amended_idempotent_witness :
    mapShards [] { cx4wSnap with
      shards := applyUpdates cx4wSnap.shards (mapShards [] cx4wSnap) } = [] := by
  exact claim_C4_amended_idempotent_when_sgups_nonempty [] cx4wSnap (by decide) (by decide)

/-! ### Frame properties of the write decision -/

/-- An emitted update's fingerprint differs from the stored one: the write
guard is exactly fingerprint inequality. -/
lemma processShard_write_finger_ne (staticUp : Option String) (sgNames upNames : List String)
    (sgups : List Sgup) (tsfs : List Tsf) (ncs : List NetworkConnection) (h : Shard)
    (u : ShardUpdate)
    (hw : processShard staticUp sgNames upNames sgups tsfs ncs h = .write u) :
    ∃ upn ncl, u.desiredUp = some upn ∧ u.desiredNc = some ncl ∧
      fingerOf upn ncl ≠ fingerActive h := by
  unfold processShard at hw
  cases hsel : selectUp staticUp upNames sgNames sgups h.desiredUp with
  | abortSweep => simp only [hsel] at hw; cases hw
  | skipShard => simp only [hsel] at hw; cases hw
  | chosen c =>
    simp only [hsel] at hw
    cases hfind : sgups.find? (fun v => v.name == c) with
    | none => simp only [hfind] at hw; cases hw
    | some up =>
      simp only [hfind] at hw
      by_cases hfp : fingerOf up.name (matchedNcNames tsfs ncs up.defaultEndpointName) ≠
          fingerActive h
      · rw [if_pos hfp] at hw
        refine ⟨up.name, matchedNcNames tsfs ncs up.defaultEndpointName, ?_, ?_, hfp⟩
        · injection hw with hw'
          rw [← hw']
        · injection hw with hw'
          rw [← hw']
      · rw [if_neg hfp] at hw
        cases hw

/-- Equality of all the SGUP fields the write decision reads — everything
except `supported_service_group`. -/
def sgupCoreEq (u v : Sgup) : Prop :=
  u.name = v.name ∧ u.serviceGatewayName = v.serviceGatewayName ∧
    u.maxSessionCount = v.maxSessionCount ∧
    u.allocatedSessionCount = v.allocatedSessionCount ∧
    u.defaultEndpointName = v.defaultEndpointName

/-- Core-equal SGUP lists have equal name lists. -/
lemma forall2_map_name {l l' : List Sgup} (h : List.Forall₂ sgupCoreEq l l') :
    l.map Sgup.name = l'.map Sgup.name := by
  induction h with
  | nil => rfl
  | cons hrel _ ih => rw [List.map_cons, List.map_cons, hrel.1, ih]

/-- One load-dict step only reads core fields. -/
lemma sgupLoadStep_congr {a b : Sgup} (hrel : sgupCoreEq a b) (sgNames : List String)
    (acc : List (String × ℚ)) : sgupLoadStep sgNames acc a = sgupLoadStep sgNames acc b := by
  obtain ⟨h1, h2, h3, h4, _⟩ := hrel
  unfold sgupLoadStep loadOf
  rw [h1, h2, h3, h4]

/-- The load dict only reads core fields. -/
lemma forall2_sgupLoad {l l' : List Sgup} (h : List.Forall₂ sgupCoreEq l l')
    (sgNames : List String) : sgupLoad l sgNames = sgupLoad l' sgNames := by
  unfold sgupLoad
  suffices hgen : ∀ acc, l.foldl (sgupLoadStep sgNames) acc =
      l'.foldl (sgupLoadStep sgNames) acc from hgen []
  induction h with
  | nil => intro _; rfl
  | cons hrel _ ih =>
    intro acc
    rw [List.foldl_cons, List.foldl_cons, sgupLoadStep_congr hrel sgNames acc]
    exact ih _

/-- `find?` by name returns related hits on core-equal lists. -/
lemma forall2_find?_name {l l' : List Sgup} (h : List.Forall₂ sgupCoreEq l l')
    (c : String) :
    (l.find? (fun v => v.name == c) = none ∧ l'.find? (fun v => v.name == c) = none) ∨
    ∃ a b, l.find? (fun v => v.name == c) = some a ∧
      l'.find? (fun v => v.name == c) = some b ∧ sgupCoreEq a b := by
  induction h with
  | nil => exact Or.inl ⟨rfl, rfl⟩
  | @cons a b la lb hrel _ ih =>
    by_cases hpa : (a.name == c) = true
    · have hpb : (b.name == c) = true := by rw [← hrel.1]; exact hpa
      rw [List.find?_cons_of_pos la (show (fun v : Sgup => v.name == c) a = true from hpa),
        List.find?_cons_of_pos lb (show (fun v : Sgup => v.name == c) b = true from hpb)]
      exact Or.inr ⟨a, b, rfl, rfl, hrel⟩
    · have hpb : ¬((b.name == c) = true) := by rw [← hrel.1]; exact hpa
      rw [List.find?_cons_of_neg la (show ¬((fun v : Sgup => v.name == c) a = true) from hpa),
        List.find?_cons_of_neg lb (show ¬((fun v : Sgup => v.name == c) b = true) from hpb)]
      exact ih

/-- The selection step only reads core SGUP fields. -/
lemma selectUp_congr {l l' : List Sgup} (h : List.Forall₂ sgupCoreEq l l')
    (st : Option String) (sgNames : List String) (s : String) :
    selectUp st (l'.map Sgup.name) sgNames l' s = selectUp st (l.map Sgup.name) sgNames l s := by
  rw [← forall2_map_name h]
  unfold selectUp
  rw [← forall2_sgupLoad h sgNames]

/-- Claim C10 (amended): the per-shard write decision is a function of the
fingerprint pair. (a) An emitted update's computed fingerprint differs from
the stored one — so coinciding fingerprints mean no write, and the
`service_groups_supported` / `current_tsf_network_connection` payloads are
only ever sent together with a fingerprint change. (b) Changing only the
SGUPs' `supported_service_group` lists never changes the write decision.
No invariance under reordering the NC list is claimed: the fingerprint
joins the computed NC-name set in its iteration order, which is sensitive
to insertion order, so a reorder that flips a `tsf → nc` slot winner can
change the fingerprint and trigger a write (see the counterexample). -/
theorem claim_C10_amended_write_decision_frame (pol : List PolicyEntry) (S : Snapshot)
    (h : Shard) :
    (∀ u, processShard (staticPin pol h.name) (S.sgs.map ServiceGateway.name)
        (S.sgups.map Sgup.name) S.sgups S.tsfs S.ncs h = .write u →
      fingerOf (Option.getD u.desiredUp ("")) (Option.getD u.desiredNc []) ≠
        fingerActive h) ∧
    (∀ sgups', List.Forall₂ sgupCoreEq S.sgups sgups' →
      shardWrites pol { S with sgups := sgups' } h = shardWrites pol S h) := by
  refine ⟨?_, ?_⟩
  · intro u hw
    obtain ⟨upn, ncl, h1, h2, h3⟩ := processShard_write_finger_ne _ _ _ _ _ _ _ _ hw
    rw [h1, h2]
    exact h3
  · intro sgups' hrel
    unfold shardWrites processShard
    rw [show ({ S with sgups := sgups' } : Snapshot).sgups = sgups' from rfl,
      selectUp_congr hrel (staticPin pol h.name) (S.sgs.map ServiceGateway.name) h.desiredUp]
    cases hsel : selectUp (staticPin pol h.name) (S.sgups.map Sgup.name)
        (S.sgs.map ServiceGateway.name) S.sgups h.desiredUp with
    | abortSweep => simp only [hsel]
    | skipShard => simp only [hsel]
    | chosen c =>
      simp only [hsel]
      rcases forall2_find?_name hrel c with ⟨hfa, hfb⟩ | ⟨a, b, hfa, hfb, hab⟩
      · simp only [hfa, hfb]
      · simp only [hfa, hfb]
        rw [show b.name = a.name from hab.1.symm,
          show b.defaultEndpointName = a.defaultEndpointName from hab.2.2.2.2.symm]
        by_cases hfp : fingerOf a.name (matchedNcNames S.tsfs S.ncs a.defaultEndpointName) ≠
            fingerActive h
        · rw [if_pos hfp, if_pos hfp]
        · rw [if_neg hfp, if_neg hfp]

/-- MS-PTP connection `n1` joining `ep-T1` to `epA`. -/
def cx10Nc1 : NetworkConnection :=
  { name := ("n1"), ncSpecType := ("MsPtpSpec"),
    msPtpTsfEndpoint := ("ep-T1"), msPtpSgupEndpoint := ("epA") }

/-- MS-PTP connection `n2` joining the same endpoints: both `n1` and `n2`
match the TSF, so the `tsf → nc` slot winner depends on NC order. -/
def cx10Nc2 : NetworkConnection :=
  { name := ("n2"), ncSpecType := ("MsPtpSpec"),
    msPtpTsfEndpoint := ("ep-T1"), msPtpSgupEndpoint := ("epA") }

/-- SGUP `A` with a changed `supported_service_group` list. -/
def cx10SgupAlt : Sgup := ⟨("A"), ("g1"), 100, 10, ("epA"), [("x")]⟩

/-- Snapshot with one TSF, two equally matching NCs and an unbound shard. -/
def cx10Snap : Snapshot := ⟨[⟨("g1")⟩], [cxSgupA], [cxShardS1], [cx3Tsf], [cx10Nc1, cx10Nc2]⟩

/-- Shard whose stored desired state equals the state the sweep computes on
`cx10SnapB`: desired SGUP `A`, desired NCs `[n1, n2]` in that order. -/
def cx10Shard : Shard := ⟨("s1"), ("A"), [("n1"), ("n2")], []⟩

/-- Snapshot with one TSF, two equally matching NCs and the already
reconciled shard `cx10Shard`. -/
def cx10SnapB : Snapshot := ⟨[⟨("g1")⟩], [cxSgupA], [cx10Shard], [cx3Tsf], [cx10Nc1, cx10Nc2]⟩

/-- Claim C10 counterexample: reordering the snapshot's two NCs changes
nothing but the iteration order — the matched name set has the same
contents and the `tsf → nc` slot winner flips from `n2` to `n1` — yet the
joined fingerprint changes and the sweep now writes the shard it had just
left alone. The write decision is therefore not a function of the
(chosen SGUP, NC name set) pair, and a change confined to which NC wins a
TSF's slot does trigger a write. -/
theorem claim_C10_counterexample :
    matchedNcNames cx10SnapB.tsfs cx10SnapB.ncs ("epA") = [("n1"), ("n2")] ∧
    matchedNcNames cx10SnapB.tsfs [cx10Nc2, cx10Nc1] ("epA") = [("n2"), ("n1")] ∧
    tsfNcMap cx10SnapB.tsfs cx10SnapB.ncs ("epA") = [(("t1"), ("n2"))] ∧
    tsfNcMap cx10SnapB.tsfs [cx10Nc2, cx10Nc1] ("epA") = [(("t1"), ("n1"))] ∧
    shardWrites [] cx10SnapB cx10Shard = false ∧
    shardWrites [] { cx10SnapB with ncs := [cx10Nc2, cx10Nc1] } cx10Shard = true := by
  refine ⟨by decide, by decide, by decide, by decide, by decide, by decide⟩

/-- The update the sweep emits for the unbound shard of `cx10Snap`. -/
def cx10Update : ShardUpdate :=
  ⟨("s1"), some ("A"), some [("n1"), ("n2")], some [(("t1"), ("n2"))], some [], []⟩

/-- Witness for the amended claim C10: the update emitted for the unbound
shard carries a fingerprint differing from the stored one, and changing the
SGUP's supported service groups leaves the write decision unchanged. -/
theorem claim_C10_amended_write_decision_frame_witness :
    fingerOf (Option.getD cx10Update.desiredUp ("")) (Option.getD cx10Update.desiredNc []) ≠
      fingerActive cxShardS1 ∧
    shardWrites [] { cx10SnapB with sgups := [cx10SgupAlt] } cx10Shard =
      shardWrites [] cx10SnapB cx10Shard := by
  constructor
  · exact (claim_C10_amended_write_decision_frame [] cx10Snap cxShardS1).1 cx10Update
      (by decide)
  · exact (claim_C10_amended_write_decision_frame [] cx10SnapB cx10Shard).2 [cx10SgupAlt]
      (List.Forall₂.cons ⟨rfl, rfl, rfl, rfl, rfl⟩ List.Forall₂.nil)

end UpsfSgrp
